import Mathlib

/-!
# Verification of the GitHub data-access layer

Shallow embedding of the data-access core of `src/github.py` (a Streamlit
GitHub profile / repository / README viewer) and proofs of its specified
properties.

The embedding models:

* `get_user` — profile fetch with `raise_for_status` error propagation;
* `list_user_repos` — the paginated repository listing loop;
* `get_readme_json` — the `raw=False` branch of `get_readme`
  (base64 decoding of the JSON `content` field followed by UTF-8 decoding
  with `errors="replace"`);
* `make_repo_dataframe` — the row projection with defaults and the
  two-key descending sort performed by
  `df.sort_values(by=["stars", "updated_at"], ascending=[False, False])`.

HTTP responses are modelled by `HttpResult`: either a network-level failure
(`requests` raising a connection error) or a response with a status code and
a parsed body.  Python exceptions are modelled with `Except` using the
spec's error taxonomy (`NotFoundError` for the 4xx class, `TransportError`
for network failures and the 5xx class); `requests.Response.raise_for_status`
raises exactly for statuses 400–599.  Nontermination of the pagination
`while True` loop is modelled with fuel: a `none` result means the loop did
not finish within the given fuel.
-/

namespace GithubProfile

/-- The spec's error taxonomy (§7 of the spec): `NotFoundError` for the
4xx class, `TransportError` for network-level failures and remaining
non-2xx statuses. -/
inductive FetchError where
  | NotFoundError : FetchError
  | TransportError : FetchError
  deriving DecidableEq

/-- Outcome of one `requests.get` call: either a network-level failure
(`requests.ConnectionError` / timeout) or an HTTP response carrying a status
code and a parsed body. -/
inductive HttpResult (α : Type) where
  | transportError : HttpResult α
  | response (status : Nat) (body : α) : HttpResult α
  deriving DecidableEq

/-- `get_user` (src/github.py lines 26–31): one GET to `/users/{username}`,
`r.raise_for_status()`, then return the parsed JSON body.
`raise_for_status` raises for statuses 400–599; per the spec's taxonomy a
4xx failure is `NotFoundError` and a 5xx or network failure is
`TransportError`.  The function issues exactly one request (no retry): it
consumes a single `HttpResult`. -/
def get_user {α : Type} (resp : HttpResult α) : Except FetchError α :=
  match resp with
  | .transportError => .error .TransportError
  | .response status body =>
    if 400 ≤ status ∧ status < 500 then .error .NotFoundError
    else if 500 ≤ status ∧ status < 600 then .error .TransportError
    else .ok body

/-- The pagination loop body of `list_user_repos` (src/github.py lines
37–51).  `pages n` is the outcome of the GET for page `n` (pages are
1-indexed, as in the source where `page` starts at 1).  `repos` is the
accumulator (`repos = []` initially), `reqs` counts the page requests
issued so far (instrumentation for the spec's request-count properties).
Fuel models the `while True` loop: `none` means the loop did not terminate
within `fuel` iterations.  Each iteration mirrors the source exactly:
issue the request, `raise_for_status`, break on an empty batch, extend the
accumulator, break when the batch is shorter than `per_page`, else go to
the next page. -/
def list_user_reposAux {α : Type} (pages : Nat → HttpResult (List α)) (per_page : Int) :
    Nat → Nat → List α → Nat → Option (Except FetchError (List α × Nat))
  | 0, _, _, _ => none
  | fuel + 1, page, repos, reqs =>
    match pages page with
    | .transportError => some (.error .TransportError)
    | .response status batch =>
      if 400 ≤ status ∧ status < 500 then some (.error .NotFoundError)
      else if 500 ≤ status ∧ status < 600 then some (.error .TransportError)
      else if batch.isEmpty then some (.ok (repos, reqs + 1))
      else if (batch.length : Int) < per_page then some (.ok (repos ++ batch, reqs + 1))
      else list_user_reposAux pages per_page fuel (page + 1) (repos ++ batch) (reqs + 1)

/-- `list_user_repos` (src/github.py lines 35–51): run the pagination loop
from page 1 with an empty accumulator.  On success it returns the
accumulated repository list together with the number of page requests
issued. -/
def list_user_repos {α : Type} (pages : Nat → HttpResult (List α)) (per_page : Int)
    (fuel : Nat) : Option (Except FetchError (List α × Nat)) :=
  list_user_reposAux pages per_page fuel 1 [] 0

/-- The canonical well-behaved paging server for a user whose full
repository list is `repos`: page `n` (1-indexed) replies 200 with the
`n`-th slice of size `per_page`, exactly as the GitHub list endpoint pages
a stable listing. -/
def pagesOf {α : Type} (repos : List α) (per_page : Nat) (n : Nat) : HttpResult (List α) :=
  .response 200 ((repos.drop ((n - 1) * per_page)).take per_page)

/-! ## The Tabulator (`make_repo_dataframe`) -/

/-- A raw repository JSON object as consumed by `make_repo_dataframe`
(src/github.py lines 76–90): every field read via `r.get(...)` is optional.
Field order follows the row dictionary built in the source. -/
structure RepoJson where
  name : Option String
  description : Option String
  language : Option String
  stargazers_count : Option Int
  forks_count : Option Int
  updated_at : Option String
  html_url : Option String
  «private» : Option Bool
  deriving DecidableEq

/-- One row of the produced dataframe (src/github.py lines 79–90). -/
structure Row where
  name : Option String
  description : Option String
  language : Option String
  stars : Int
  forks : Int
  updated_at : Option String
  html_url : Option String
  «private» : Bool
  deriving DecidableEq

/-- The row dictionary built for each repository (src/github.py lines
79–90): pass-through `r.get(k)` fields stay optional, `r.get(k, d)` fields
take the explicit default (`stargazers_count → 0`, `forks_count → 0`,
`private → False`). -/
def toRow (r : RepoJson) : Row :=
  { name := r.name
    description := r.description
    language := r.language
    stars := r.stargazers_count.getD 0
    forks := r.forks_count.getD 0
    updated_at := r.updated_at
    html_url := r.html_url
    «private» := r.«private».getD false }

/-- Lexicographic order on character lists: the empty list is least, and
`c1 :: t1 ≤ c2 :: t2` when `c1 < c2`, or `c1 = c2` and `t1 ≤ t2`.  This is
the comparison Python applies to strings (code-point lexicographic). -/
def charListLE : List Char → List Char → Bool
  | [], _ => true
  | _ :: _, [] => false
  | c1 :: t1, c2 :: t2 => if c1 = c2 then charListLE t1 t2 else decide (c1 < c2)

/-- Code-point lexicographic `≤` on strings. -/
def strLE (s1 s2 : String) : Bool := charListLE s1.data s2.data

/-- Descending comparison on the `updated_at` column, as pandas orders an
object column of ISO-8601 strings with `ascending=False`: present values
compare by lexicographic string order, missing values (`NaN`, from a
missing `updated_at` field) sort after every present value
(`na_position="last"`). -/
def updGE : Option String → Option String → Bool
  | some s1, some s2 => strLE s2 s1
  | some _, none => true
  | none, none => true
  | none, some _ => false

/-- The sort-order relation realised by
`df.sort_values(by=["stars", "updated_at"], ascending=[False, False])`:
`rowLE a b` holds when row `a` may appear (weakly) before row `b` —
strictly more stars, or equal stars and `updGE` on the timestamps. -/
def rowLE (a b : Row) : Bool :=
  decide (b.stars < a.stars) || (decide (a.stars = b.stars) && updGE a.updated_at b.updated_at)

/-- `rowLE` as a relation, for use with `List.insertionSort`. -/
def RowLEP (a b : Row) : Prop := rowLE a b = true

instance : DecidableRel RowLEP := fun a b => inferInstanceAs (Decidable (rowLE a b = true))

/-- `make_repo_dataframe` (src/github.py lines 76–94): project every
repository object to a row, and unless the frame is empty sort it by
(`stars`, `updated_at`), both descending.  A multi-column
`DataFrame.sort_values` is performed by the stable `lexsort` indexer, so
the sort is modelled by the stable `insertionSort` (any two stable sorts
for the same total preorder agree). -/
def make_repo_dataframe (repos : List RepoJson) : List Row :=
  let rows := repos.map toRow
  if rows.isEmpty then rows else List.insertionSort RowLEP rows

/-! ## README decoding (`get_readme`, `raw=False` branch) -/

/-- Value of a standard base64 alphabet character (`A–Z`, `a–z`, `0–9`,
`+`, `/`), and `none` for every other character. -/
def b64Char (c : Char) : Option Nat :=
  if 'A' ≤ c ∧ c ≤ 'Z' then some (c.toNat - 'A'.toNat)
  else if 'a' ≤ c ∧ c ≤ 'z' then some (c.toNat - 'a'.toNat + 26)
  else if '0' ≤ c ∧ c ≤ '9' then some (c.toNat - '0'.toNat + 52)
  else if c = '+' then some 62
  else if c = '/' then some 63
  else none

/-- Decode a run of base64 quads into bytes.  `=` padding may occur only in
the last quad (once or twice); a malformed quad yields `none`, modelling
`binascii.Error`. -/
def b64Quads : List Char → Option (List Nat)
  | [] => some []
  | c1 :: c2 :: c3 :: c4 :: rest =>
    match b64Char c1, b64Char c2 with
    | some v1, some v2 =>
      if c3 = '=' then
        if c4 = '=' ∧ rest = [] then some [v1 * 4 + v2 / 16] else none
      else
        match b64Char c3 with
        | some v3 =>
          if c4 = '=' then
            if rest = [] then some [v1 * 4 + v2 / 16, v2 % 16 * 16 + v3 / 4] else none
          else
            match b64Char c4 with
            | some v4 =>
              (b64Quads rest).map
                (fun tail => (v1 * 4 + v2 / 16) :: (v2 % 16 * 16 + v3 / 4) ::
                  (v3 % 4 * 64 + v4) :: tail)
            | none => none
        | none => none
    | _, _ => none
  | _ => none

/-- `base64.b64decode` with its default `validate=False`: characters
outside the alphabet and `=` are discarded, then the remaining characters
must form well-padded quads; `none` models the `binascii.Error` raised on
incorrect padding.  (Every well-formed payload the spec quantifies over is
a single properly padded run of quads, which this covers exactly.) -/
def b64decode (s : String) : Option (List Nat) :=
  let cs := s.data.filter (fun c => (b64Char c).isSome || c = '=')
  if cs.length % 4 = 0 then b64Quads cs else none

/-- The Unicode replacement character U+FFFD substituted by
`errors="replace"`. -/
def replChar : Char := Char.ofNat 0xFFFD

/-- Is `b` a UTF-8 continuation byte (`0x80–0xBF`)? -/
def utf8Cont (b : Nat) : Bool := decide (0x80 ≤ b ∧ b ≤ 0xBF)

/-- Valid range of the second byte after a three-byte lead `b`
(`0xE0` restricts to `0xA0–0xBF`, `0xED` excludes surrogates). -/
def utf8Cont3 (b b2 : Nat) : Bool :=
  if b = 0xE0 then decide (0xA0 ≤ b2 ∧ b2 ≤ 0xBF)
  else if b = 0xED then decide (0x80 ≤ b2 ∧ b2 ≤ 0x9F)
  else utf8Cont b2

/-- Valid range of the second byte after a four-byte lead `b`
(`0xF0` excludes overlong forms, `0xF4` caps at U+10FFFF). -/
def utf8Cont4 (b b2 : Nat) : Bool :=
  if b = 0xF0 then decide (0x90 ≤ b2 ∧ b2 ≤ 0xBF)
  else if b = 0xF4 then decide (0x80 ≤ b2 ∧ b2 ≤ 0x8F)
  else utf8Cont b2

/-- `bytes.decode("utf-8", errors="replace")`: total UTF-8 decoding where
every maximal subpart of an ill-formed sequence is replaced by one U+FFFD
(CPython follows the Unicode recommended practice).  Well-formed sequences
decode to their scalar value; decoding never fails. -/
def utf8DecodeReplace : List Nat → List Char
  | [] => []
  | [b] => if b ≤ 0x7F then [Char.ofNat b] else [replChar]
  | b :: b2 :: bs2 =>
    if b ≤ 0x7F then Char.ofNat b :: utf8DecodeReplace (b2 :: bs2)
    else if 0xC2 ≤ b ∧ b ≤ 0xDF then
      if utf8Cont b2 then
        Char.ofNat ((b - 0xC0) * 0x40 + (b2 - 0x80)) :: utf8DecodeReplace bs2
      else replChar :: utf8DecodeReplace (b2 :: bs2)
    else if 0xE0 ≤ b ∧ b ≤ 0xEF then
      if utf8Cont3 b b2 then
        match bs2 with
        | [] => [replChar]
        | b3 :: bs3 =>
          if utf8Cont b3 then
            Char.ofNat (((b - 0xE0) * 0x40 + (b2 - 0x80)) * 0x40 + (b3 - 0x80)) ::
              utf8DecodeReplace bs3
          else replChar :: utf8DecodeReplace (b3 :: bs3)
      else replChar :: utf8DecodeReplace (b2 :: bs2)
    else if 0xF0 ≤ b ∧ b ≤ 0xF4 then
      if utf8Cont4 b b2 then
        match bs2 with
        | [] => [replChar]
        | [b3] => if utf8Cont b3 then [replChar] else replChar :: utf8DecodeReplace [b3]
        | b3 :: b4 :: bs4 =>
          if utf8Cont b3 then
            if utf8Cont b4 then
              Char.ofNat ((((b - 0xF0) * 0x40 + (b2 - 0x80)) * 0x40 + (b3 - 0x80)) * 0x40 +
                (b4 - 0x80)) :: utf8DecodeReplace bs4
            else replChar :: utf8DecodeReplace (b4 :: bs4)
          else replChar :: utf8DecodeReplace (b3 :: b4 :: bs4)
      else replChar :: utf8DecodeReplace (b2 :: bs2)
    else replChar :: utf8DecodeReplace (b2 :: bs2)

/-- The `raw=False` branch of `get_readme` (src/github.py lines 68–73)
after a successful response: read the optional `content` field of the JSON
body (`data.get("content", "")`), base64-decode it and decode the bytes as
UTF-8 with `errors="replace"`.  `none` models the `binascii.Error` escape
on invalid base64; UTF-8 decoding itself never fails. -/
def get_readme_json (content : Option String) : Option String :=
  let content_b64 := content.getD ""
  (b64decode content_b64).map (fun bytes => String.mk (utf8DecodeReplace bytes))

/-! ## Concrete records for the spec's scenario properties -/

/-- Scenario record with 5 stars, last updated 2023-01-01. -/
def repoStars5Upd2023 : RepoJson :=
  ⟨none, none, none, some 5, none, some "2023-01-01", none, none⟩

/-- Scenario record with 5 stars, last updated 2024-01-01. -/
def repoStars5Upd2024 : RepoJson :=
  ⟨none, none, none, some 5, none, some "2024-01-01", none, none⟩

/-- Scenario record with 10 stars, last updated 2022-01-01. -/
def repoStars10Upd2022 : RepoJson :=
  ⟨none, none, none, some 10, none, some "2022-01-01", none, none⟩

/-! ## Order-theoretic facts about the sort comparator -/

theorem charListLE_refl : ∀ a : List Char, charListLE a a = true
  | [] => rfl
  | c :: t => by simp [charListLE, charListLE_refl t]

theorem charListLE_total : ∀ a b : List Char, charListLE a b = true ∨ charListLE b a = true
  | [], _ => Or.inl rfl
  | _ :: _, [] => Or.inr rfl
  | c1 :: t1, c2 :: t2 => by
    by_cases h : c1 = c2
    · subst h
      simpa [charListLE] using charListLE_total t1 t2
    · rcases lt_or_gt_of_ne h with hlt | hgt
      · exact Or.inl (by simp [charListLE, h, hlt])
      · exact Or.inr (by simp [charListLE, Ne.symm h, hgt])

theorem charListLE_trans :
    ∀ a b c : List Char, charListLE a b = true → charListLE b c = true → charListLE a c = true
  | [], _, _, _, _ => rfl
  | _ :: _, [], _, h1, _ => by simp [charListLE] at h1
  | _ :: _, _ :: _, [], _, h2 => by simp [charListLE] at h2
  | a1 :: t1, b1 :: t2, c1 :: t3, h1, h2 => by
    simp only [charListLE] at h1 h2 ⊢
    by_cases hab : a1 = b1
    · subst hab
      rw [if_pos rfl] at h1
      by_cases hbc : a1 = c1
      · subst hbc
        rw [if_pos rfl] at h2 ⊢
        exact charListLE_trans t1 t2 t3 h1 h2
      · rw [if_neg hbc] at h2 ⊢
        exact h2
    · rw [if_neg hab] at h1
      have h1' : a1 < b1 := of_decide_eq_true h1
      by_cases hbc : b1 = c1
      · subst hbc
        rw [if_neg hab]
        exact h1
      · have h2' : b1 < c1 := of_decide_eq_true (by rwa [if_neg hbc] at h2)
        have hac : a1 < c1 := lt_trans h1' h2'
        rw [if_neg (ne_of_lt hac)]
        exact decide_eq_true hac

theorem updGE_refl : ∀ x : Option String, updGE x x = true
  | some s => charListLE_refl s.data
  | none => rfl

theorem updGE_total : ∀ x y : Option String, updGE x y = true ∨ updGE y x = true
  | some s1, some s2 => charListLE_total s2.data s1.data
  | some _, none => Or.inl rfl
  | none, some _ => Or.inr rfl
  | none, none => Or.inl rfl

theorem updGE_trans :
    ∀ x y z : Option String, updGE x y = true → updGE y z = true → updGE x z = true
  | some _, some _, some _, h1, h2 => charListLE_trans _ _ _ h2 h1
  | some _, some _, none, _, _ => rfl
  | some _, none, some _, _, h2 => by simp [updGE] at h2
  | some _, none, none, _, _ => rfl
  | none, some _, _, h1, _ => by simp [updGE] at h1
  | none, none, some _, _, h2 => by simp [updGE] at h2
  | none, none, none, _, _ => rfl

theorem rowLE_iff (a b : Row) :
    rowLE a b = true ↔
      b.stars < a.stars ∨ (a.stars = b.stars ∧ updGE a.updated_at b.updated_at = true) := by
  simp [rowLE, Bool.or_eq_true, Bool.and_eq_true, decide_eq_true_iff]

theorem rowLEP_total : ∀ a b : Row, RowLEP a b ∨ RowLEP b a := by
  intro a b
  unfold RowLEP
  rw [rowLE_iff, rowLE_iff]
  rcases lt_trichotomy a.stars b.stars with h | h | h
  · exact Or.inr (Or.inl h)
  · rcases updGE_total a.updated_at b.updated_at with hu | hu
    · exact Or.inl (Or.inr ⟨h, hu⟩)
    · exact Or.inr (Or.inr ⟨h.symm, hu⟩)
  · exact Or.inl (Or.inl h)

theorem rowLEP_trans : ∀ a b c : Row, RowLEP a b → RowLEP b c → RowLEP a c := by
  intro a b c hab hbc
  unfold RowLEP at hab hbc ⊢
  rw [rowLE_iff] at hab hbc ⊢
  rcases hab with h1 | ⟨e1, u1⟩
  · rcases hbc with h2 | ⟨e2, _⟩
    · exact Or.inl (lt_trans h2 h1)
    · exact Or.inl (by omega)
  · rcases hbc with h2 | ⟨e2, u2⟩
    · exact Or.inl (by omega)
    · exact Or.inr ⟨e1.trans e2, updGE_trans _ _ _ u1 u2⟩

/-! ## Stability of the insertion sort used to model `lexsort` -/

theorem filter_orderedInsert_pos (P : Row → Bool) (a : Row) (hPa : P a = true)
    (hkey : ∀ c, P c = true → RowLEP a c) :
    ∀ l : List Row, (List.orderedInsert RowLEP a l).filter P = a :: l.filter P
  | [] => by simp [hPa]
  | b :: l => by
    by_cases hr : RowLEP a b
    · rw [List.orderedInsert, if_pos hr]
      simp [List.filter_cons, hPa]
    · have hPb : P b = false := by
        cases hb : P b
        · rfl
        · exact absurd (hkey b hb) hr
      rw [List.orderedInsert, if_neg hr, List.filter_cons, hPb]
      simp only [Bool.false_eq_true, if_false]
      rw [filter_orderedInsert_pos P a hPa hkey l, List.filter_cons, hPb]
      simp

theorem filter_orderedInsert_neg (P : Row → Bool) (a : Row) (hPa : P a = false) :
    ∀ l : List Row, (List.orderedInsert RowLEP a l).filter P = l.filter P
  | [] => by simp [hPa]
  | b :: l => by
    by_cases hr : RowLEP a b
    · rw [List.orderedInsert, if_pos hr]
      simp [List.filter_cons, hPa]
    · rw [List.orderedInsert, if_neg hr, List.filter_cons,
        filter_orderedInsert_neg P a hPa l, List.filter_cons]

theorem filter_insertionSort (P : Row → Bool)
    (hkey : ∀ a c, P a = true → P c = true → RowLEP a c) :
    ∀ l : List Row, (List.insertionSort RowLEP l).filter P = l.filter P
  | [] => rfl
  | x :: l => by
    rw [List.insertionSort]
    cases hPx : P x
    · rw [filter_orderedInsert_neg P x hPx, filter_insertionSort P hkey l, List.filter_cons, hPx]
      simp
    · rw [filter_orderedInsert_pos P x hPx (fun c hc => hkey x c hPx hc),
        filter_insertionSort P hkey l, List.filter_cons, hPx]
      simp

/-! ## Claim theorems: Tabulator -/

/-- C3: for every input sequence of repository records, the Tabulator's
output is sorted so that any two adjacent rows satisfy
`row[i].stars ≥ row[i+1].stars`, and when the star counts are equal and
both timestamps are present, `row[i].updated_at ≥ row[i+1].updated_at`
under lexicographic string comparison; moreover the scenario input
`[(5, 2023-01-01), (5, 2024-01-01), (10, 2022-01-01)]` produces the order
`[10, 5/2024, 5/2023]`. -/
theorem make_repo_dataframe_sorted (repos : List RepoJson) :
    List.Chain'
      (fun r1 r2 => r2.stars ≤ r1.stars ∧
        (r1.stars = r2.stars → ∀ s1 s2, r1.updated_at = some s1 → r2.updated_at = some s2 →
          strLE s2 s1 = true))
      (make_repo_dataframe repos)
    ∧ make_repo_dataframe [repoStars5Upd2023, repoStars5Upd2024, repoStars10Upd2022]
      = [toRow repoStars10Upd2022, toRow repoStars5Upd2024, toRow repoStars5Upd2023] := by
  constructor
  · unfold make_repo_dataframe
    by_cases he : (repos.map toRow).isEmpty
    · rw [if_pos he, List.isEmpty_iff.mp he]
      exact List.chain'_nil
    · rw [if_neg he]
      haveI : IsTotal Row RowLEP := ⟨rowLEP_total⟩
      haveI : IsTrans Row RowLEP := ⟨rowLEP_trans⟩
      have hs : List.Sorted RowLEP (List.insertionSort RowLEP (repos.map toRow)) :=
        List.sorted_insertionSort RowLEP _
      refine (List.Pairwise.chain' hs).imp ?_
      intro a b hab
      unfold RowLEP at hab
      rw [rowLE_iff] at hab
      rcases hab with h | ⟨he2, hu⟩
      · exact ⟨le_of_lt h, fun heq => absurd heq (by omega)⟩
      · refine ⟨le_of_eq he2.symm, fun _ s1 s2 h1 h2 => ?_⟩
        rw [h1, h2] at hu
        exact hu
  · rfl

/-- C4: the Tabulator's sort is stable — for every input and every value of
the sort key (star count, last-updated timestamp), the rows carrying that
key appear in the output in exactly the order in which they appear in the
projected input. -/
theorem make_repo_dataframe_stable (repos : List RepoJson) (st : Int) (upd : Option String) :
    (make_repo_dataframe repos).filter
        (fun row => decide (row.stars = st ∧ row.updated_at = upd))
      = (repos.map toRow).filter
        (fun row => decide (row.stars = st ∧ row.updated_at = upd)) := by
  unfold make_repo_dataframe
  by_cases he : (repos.map toRow).isEmpty
  · rw [if_pos he]
  · rw [if_neg he]
    apply filter_insertionSort
    intro a c ha hc
    obtain ⟨has, hau⟩ := of_decide_eq_true ha
    obtain ⟨hcs, hcu⟩ := of_decide_eq_true hc
    unfold RowLEP
    rw [rowLE_iff]
    exact Or.inr ⟨has.trans hcs.symm, by rw [hau, hcu]; exact updGE_refl upd⟩

/-- C7: every missing optional field of a repository record is filled with
its documented default in the produced row: description and language stay
absent, star and fork counts become 0, the private flag becomes false; and
the row so produced is exactly what the Tabulator emits. -/
theorem make_repo_dataframe_defaults (r : RepoJson) :
    (r.description = none → (toRow r).description = none)
    ∧ (r.language = none → (toRow r).language = none)
    ∧ (r.stargazers_count = none → (toRow r).stars = 0)
    ∧ (r.forks_count = none → (toRow r).forks = 0)
    ∧ (r.«private» = none → (toRow r).«private» = false)
    ∧ make_repo_dataframe [r] = [toRow r] := by
  refine ⟨fun h => ?_, fun h => ?_, fun h => ?_, fun h => ?_, fun h => ?_, ?_⟩ <;>
    simp [toRow, make_repo_dataframe, *]

/-- Witness for C7 at a record with every optional field missing. -/
theorem make_repo_dataframe_defaults_witness :
    (toRow ⟨none, none, none, none, none, none, none, none⟩).stars = 0
    ∧ (toRow ⟨none, none, none, none, none, none, none, none⟩).forks = 0
    ∧ (toRow ⟨none, none, none, none, none, none, none, none⟩).«private» = false :=
  ⟨(make_repo_dataframe_defaults _).2.2.1 rfl,
   (make_repo_dataframe_defaults _).2.2.2.1 rfl,
   (make_repo_dataframe_defaults _).2.2.2.2.1 rfl⟩

/-- C8: the Tabulator applied to the empty sequence of repository records
returns an empty table; being a total function of the input list, it
raises no error. -/
theorem make_repo_dataframe_empty : make_repo_dataframe [] = [] := rfl

/-! ## Claim theorems: Profile Fetcher -/

/-- C5: for every 4xx status the Profile Fetcher fails with
`NotFoundError`, and for a network-level failure with `TransportError`; in
either case the result is an error carrying no profile data (no partial
profile object), and the function consumes exactly one response (no
retry). -/
theorem get_user_4xx_not_found {α : Type} (status : Nat) (body : α)
    (h4 : 400 ≤ status) (h5 : status < 500) :
    get_user (HttpResult.response status body) = .error .NotFoundError
    ∧ get_user (HttpResult.transportError : HttpResult α) = .error .TransportError := by
  refine ⟨?_, rfl⟩
  simp only [get_user]
  rw [if_pos ⟨h4, h5⟩]

/-- Witness for C5 at status 404. -/
theorem get_user_4xx_not_found_witness :
    get_user (HttpResult.response 404 (0 : Nat)) = .error .NotFoundError
    ∧ get_user (HttpResult.transportError : HttpResult Nat) = .error .TransportError :=
  get_user_4xx_not_found 404 0 (by decide) (by decide)

/-! ## Claim theorems: README Fetcher -/

/-- C2: whenever the JSON body's `content` field holds valid base64, the
non-raw README Fetcher returns the decoded bytes decoded as UTF-8 with
replacement (total — it never raises on malformed UTF-8); in particular
content `SGVsbG8=` yields `Hello`, and content `/w==` (the lone byte 0xFF,
invalid UTF-8) yields one replacement character instead of an error. -/
theorem get_readme_decodes_utf8_replace (c : String) (bytes : List Nat)
    (h : b64decode c = some bytes) :
    get_readme_json (some c) = some (String.mk (utf8DecodeReplace bytes))
    ∧ get_readme_json (some "SGVsbG8=") = some "Hello"
    ∧ get_readme_json (some "/w==") = some (String.mk [replChar]) := by
  refine ⟨?_, by decide, by decide⟩
  unfold get_readme_json
  simp only [Option.getD_some]
  rw [h, Option.map_some']

/-- Witness for C2 at the scenario input `SGVsbG8=`. -/
theorem get_readme_decodes_utf8_replace_witness :
    get_readme_json (some "SGVsbG8=") = some "Hello" :=
  (get_readme_decodes_utf8_replace "SGVsbG8=" [72, 101, 108, 108, 111] (by decide)).2.1

/-- C9: when the JSON body has no `content` field, the non-raw README
Fetcher returns the empty string (the missing field defaults to the empty
base64 payload) rather than raising. -/
theorem get_readme_missing_content : get_readme_json none = some "" := rfl

/-! ## Claim theorems: Repository Lister -/

/-- Invariant of the pagination loop over the canonical paging server:
starting at page `p ≥ 1` with accumulator `acc`, and fuel exceeding the
number of repositories still to be fetched, the loop returns the
accumulator followed by every remaining repository, issuing exactly
`remaining / per_page + 1` further page requests. -/
theorem list_user_reposAux_pagesOf {α : Type} (repos : List α) (pp : Nat) (hpp : 0 < pp) :
    ∀ (fuel p : Nat) (acc : List α) (reqs : Nat), 1 ≤ p →
      (repos.drop ((p - 1) * pp)).length + 1 ≤ fuel →
      list_user_reposAux (pagesOf repos pp) (pp : Int) fuel p acc reqs
        = some (.ok (acc ++ repos.drop ((p - 1) * pp),
            reqs + (repos.drop ((p - 1) * pp)).length / pp + 1)) := by
  intro fuel
  induction fuel with
  | zero => intro p acc reqs _ hf; omega
  | succ f ih =>
    intro p acc reqs hp hf
    have hrest : pagesOf repos pp p = .response 200 ((repos.drop ((p - 1) * pp)).take pp) := rfl
    simp only [list_user_reposAux, hrest]
    rw [if_neg (by decide : ¬(400 ≤ 200 ∧ 200 < 500)),
      if_neg (by decide : ¬(500 ≤ 200 ∧ 200 < 600))]
    by_cases hre : repos.drop ((p - 1) * pp) = []
    · rw [hre]
      simp
    · have htne : (repos.drop ((p - 1) * pp)).take pp ≠ [] := by
        rw [Ne, List.take_eq_nil_iff]
        push_neg
        exact ⟨by omega, hre⟩
      rw [if_neg (by simpa using htne)]
      by_cases hlt : (repos.drop ((p - 1) * pp)).length < pp
      · have htake : (repos.drop ((p - 1) * pp)).take pp = repos.drop ((p - 1) * pp) :=
          List.take_of_length_le (le_of_lt hlt)
        rw [htake, if_pos (by exact_mod_cast hlt)]
        rw [Nat.div_eq_of_lt hlt]
      · have hple : pp ≤ (repos.drop ((p - 1) * pp)).length := le_of_not_lt hlt
        have hlen : ((repos.drop ((p - 1) * pp)).take pp).length = pp := by
          rw [List.length_take]
          exact Nat.min_eq_left hple
        rw [if_neg (by rw [hlen]; exact lt_irrefl _)]
        have hdrop : repos.drop (p * pp) = (repos.drop ((p - 1) * pp)).drop pp := by
          rw [List.drop_drop]
          congr 1
          have h1 : p - 1 + 1 = p := Nat.succ_pred_eq_of_pos hp
          calc p * pp = (p - 1 + 1) * pp := by rw [h1]
            _ = (p - 1) * pp + pp := Nat.succ_mul _ _
        have := ih (p + 1) (acc ++ (repos.drop ((p - 1) * pp)).take pp) (reqs + 1)
          (by omega) ?hfuel
        case hfuel =>
          have hlc : (repos.drop ((p - 1) * pp)).length = repos.length - (p - 1) * pp :=
            List.length_drop _ _
          rw [Nat.add_sub_cancel, hdrop, List.length_drop, hlc]
          rw [hlc] at hf
          rw [hlc] at hple
          omega
        rw [this]
        simp only [Nat.add_sub_cancel, hdrop]
        rw [List.append_assoc, List.take_append_drop, List.length_drop]
        have hcount : reqs + 1 + ((repos.drop ((p - 1) * pp)).length - pp) / pp + 1
            = reqs + (repos.drop ((p - 1) * pp)).length / pp + 1 := by
          rw [Nat.div_eq_sub_div hpp hple]
          generalize ((repos.drop ((p - 1) * pp)).length - pp) / pp = d
          omega
        rw [hcount]

/-- C1: for every repository list, positive page size and sufficient fuel,
the Repository Lister over the canonical paging server returns the whole
list — the concatenation of all pages in order, with no gaps and no
duplicates — and issues exactly `length / page_size + 1` page requests:
it continues past a page exactly when the page is full and stops at the
first short (possibly empty) page.  Instantiated at a 3-repository user
with page size 2 this is exactly 2 requests returning 3 repositories. -/
theorem list_user_repos_complete {α : Type} (repos : List α) (pp fuel : Nat)
    (hpp : 0 < pp) (hfuel : repos.length + 1 ≤ fuel) :
    list_user_repos (pagesOf repos pp) (pp : Int) fuel
      = some (.ok (repos, repos.length / pp + 1)) := by
  have h := list_user_reposAux_pagesOf repos pp hpp fuel 1 [] 0 (le_refl 1)
    (by simpa using hfuel)
  simpa [list_user_repos] using h

/-- Witness for C1: the spec's scenario — 3 repositories, page size 2 —
issues exactly 2 page requests and returns all 3 repositories. -/
theorem list_user_repos_complete_witness :
    list_user_repos (pagesOf [0, 1, 2] 2) 2 4 = some (.ok ([0, 1, 2], 2)) :=
  list_user_repos_complete [0, 1, 2] 2 4 (by decide) (by decide)

/-- If every page before `k` is a full success and the loop iteration at
page `k` yields error `e` in one step, the pagination loop started at any
page `p ≤ k` returns that error, regardless of what it has accumulated. -/
theorem list_user_reposAux_reaches {α : Type} (pages : Nat → HttpResult (List α))
    (pp : Int) (k : Nat)
    (hfull : ∀ q, 1 ≤ q → q < k → ∃ s batch, pages q = .response s batch ∧
      ¬(400 ≤ s ∧ s < 600) ∧ batch ≠ [] ∧ ¬((batch.length : Int) < pp))
    (e : FetchError)
    (hstep : ∀ (f : Nat) (acc : List α) (reqs : Nat),
      list_user_reposAux pages pp (f + 1) k acc reqs = some (.error e)) :
    ∀ (fuel p : Nat) (acc : List α) (reqs : Nat), 1 ≤ p → p ≤ k → k - p < fuel →
      list_user_reposAux pages pp fuel p acc reqs = some (.error e) := by
  intro fuel
  induction fuel with
  | zero => intro p acc reqs _ _ h3; omega
  | succ f ih =>
    intro p acc reqs h1 h2 h3
    rcases eq_or_lt_of_le h2 with heq | hlt
    · subst heq
      exact hstep f acc reqs
    · obtain ⟨s, batch, hq, hs, hb, hlen⟩ := hfull p h1 hlt
      simp only [list_user_reposAux, hq]
      rw [if_neg (by omega), if_neg (by omega), if_neg (by simpa using hb), if_neg hlen]
      exact ih (p + 1) (acc ++ batch) (reqs + 1) (by omega) hlt (by omega)

/-- C6 counterexample: a pagination run whose second page request fails at
the HTTP level with status 403 (a 4xx, e.g. a rate limit) returns
`NotFoundError`, not the `TransportError` the claim states — page 1's two
repositories are indeed discarded, but the error class differs. -/
theorem list_user_repos_http_failure_counterexample :
    list_user_repos
        (fun n => if n = 1 then HttpResult.response 200 [0, 1]
          else HttpResult.response 403 ([] : List Nat)) 2 2
      = some (.error .NotFoundError)
    ∧ FetchError.NotFoundError ≠ FetchError.TransportError :=
  ⟨rfl, by decide⟩

/-- C6 (amended): if any page request in the pagination loop fails — at
the network level or with an HTTP error status — after a run of full
successful pages, the whole call fails: with `TransportError` for
network-level failures and 5xx statuses, but with `NotFoundError` for 4xx
statuses.  In every case the error result carries no repository list, so
the results accumulated from earlier pages are discarded. -/
theorem list_user_repos_page_failure_discards {α : Type}
    (pages : Nat → HttpResult (List α)) (pp : Int) (k fuel : Nat)
    (hk : 1 ≤ k) (hfuel : k ≤ fuel)
    (hfull : ∀ q, 1 ≤ q → q < k → ∃ s batch, pages q = .response s batch ∧
      ¬(400 ≤ s ∧ s < 600) ∧ batch ≠ [] ∧ ¬((batch.length : Int) < pp)) :
    (pages k = .transportError →
        list_user_repos pages pp fuel = some (.error .TransportError))
    ∧ (∀ s body, pages k = .response s body → 500 ≤ s → s < 600 →
        list_user_repos pages pp fuel = some (.error .TransportError))
    ∧ (∀ s body, pages k = .response s body → 400 ≤ s → s < 500 →
        list_user_repos pages pp fuel = some (.error .NotFoundError)) := by
  refine ⟨fun hfail => ?_, fun s body hq h5a h5b => ?_, fun s body hq h4a h4b => ?_⟩
  · exact list_user_reposAux_reaches pages pp k hfull .TransportError
      (fun f acc reqs => by simp only [list_user_reposAux, hfail])
      fuel 1 [] 0 (le_refl 1) hk (by omega)
  · exact list_user_reposAux_reaches pages pp k hfull .TransportError
      (fun f acc reqs => by
        simp only [list_user_reposAux, hq]
        rw [if_neg (by omega), if_pos ⟨h5a, h5b⟩])
      fuel 1 [] 0 (le_refl 1) hk (by omega)
  · exact list_user_reposAux_reaches pages pp k hfull .NotFoundError
      (fun f acc reqs => by
        simp only [list_user_reposAux, hq]
        rw [if_pos ⟨h4a, h4b⟩])
      fuel 1 [] 0 (le_refl 1) hk (by omega)

/-- Witness for the amended C6: servers failing on the first page request
at the network level, with a 503, and with a 403 respectively. -/
theorem list_user_repos_page_failure_discards_witness :
    list_user_repos (fun _ => (HttpResult.transportError : HttpResult (List Nat))) 2 1
      = some (.error .TransportError)
    ∧ list_user_repos (fun _ => HttpResult.response 503 ([] : List Nat)) 2 1
      = some (.error .TransportError)
    ∧ list_user_repos (fun _ => HttpResult.response 403 ([] : List Nat)) 2 1
      = some (.error .NotFoundError) :=
  ⟨(list_user_repos_page_failure_discards (fun _ => HttpResult.transportError) 2 1 1
      (le_refl 1) (le_refl 1)
      (fun q hq1 hq2 => absurd (Nat.lt_of_lt_of_le hq2 hq1) (Nat.lt_irrefl q))).1 rfl,
   (list_user_repos_page_failure_discards (fun _ => HttpResult.response 503 []) 2 1 1
      (le_refl 1) (le_refl 1)
      (fun q hq1 hq2 => absurd (Nat.lt_of_lt_of_le hq2 hq1) (Nat.lt_irrefl q))).2.1
      503 [] rfl (by decide) (by decide),
   (list_user_repos_page_failure_discards (fun _ => HttpResult.response 403 []) 2 1 1
      (le_refl 1) (le_refl 1)
      (fun q hq1 hq2 => absurd (Nat.lt_of_lt_of_le hq2 hq1) (Nat.lt_irrefl q))).2.2
      403 [] rfl (by decide) (by decide)⟩

/-- If page `n` is reachable within the fuel bound and replies with an
empty or short batch, the pagination loop halts (returns `some`). -/
theorem list_user_reposAux_stops {α : Type} (pages : Nat → HttpResult (List α)) (pp : Int)
    (n s : Nat) (batch : List α) (hn : pages n = .response s batch)
    (hshort : batch = [] ∨ (batch.length : Int) < pp) :
    ∀ (fuel p : Nat) (acc : List α) (reqs : Nat), p ≤ n → n - p < fuel →
      (list_user_reposAux pages pp fuel p acc reqs).isSome = true := by
  intro fuel
  induction fuel with
  | zero => intro p acc reqs _ h2; omega
  | succ f ih =>
    intro p acc reqs h1 h2
    rcases hres : pages p with _ | ⟨s', batch'⟩ <;> simp only [list_user_reposAux, hres]
    · rfl
    · by_cases hc1 : 400 ≤ s' ∧ s' < 500
      · rw [if_pos hc1]; rfl
      rw [if_neg hc1]
      by_cases hc2 : 500 ≤ s' ∧ s' < 600
      · rw [if_pos hc2]; rfl
      rw [if_neg hc2]
      by_cases hc3 : batch'.isEmpty
      · rw [if_pos hc3]; rfl
      rw [if_neg hc3]
      by_cases hc4 : (batch'.length : Int) < pp
      · rw [if_pos hc4]; rfl
      rw [if_neg hc4]
      have hpn : p ≠ n := by
        intro hpeq
        subst hpeq
        rw [hres] at hn
        injection hn with hs hb
        subst hb
        rcases hshort with hbe | hbl
        · exact absurd (by simp [hbe] : batch'.isEmpty = true) hc3
        · exact hc4 hbl
      exact ih (p + 1) (acc ++ batch') (reqs + 1) (by omega) (by omega)

/-- A successful pagination result with a non-positive page size can only
arise from the empty-batch break: some requested page replied with an
empty repository list. -/
theorem list_user_reposAux_ok_empty_page {α : Type} (pages : Nat → HttpResult (List α))
    (pp : Int) (hpp : pp ≤ 0) :
    ∀ (fuel p : Nat) (acc : List α) (reqs : Nat) (res : List α) (rq : Nat), 1 ≤ p →
      list_user_reposAux pages pp fuel p acc reqs = some (.ok (res, rq)) →
      ∃ q s, 1 ≤ q ∧ pages q = .response s [] := by
  intro fuel
  induction fuel with
  | zero => intro p acc reqs res rq _ h; simp [list_user_reposAux] at h
  | succ f ih =>
    intro p acc reqs res rq hp h
    rcases hres : pages p with _ | ⟨s, batch⟩ <;> simp only [list_user_reposAux, hres] at h
    · simp at h
    · by_cases hc1 : 400 ≤ s ∧ s < 500
      · rw [if_pos hc1] at h; simp at h
      rw [if_neg hc1] at h
      by_cases hc2 : 500 ≤ s ∧ s < 600
      · rw [if_pos hc2] at h; simp at h
      rw [if_neg hc2] at h
      by_cases hc3 : batch.isEmpty
      · refine ⟨p, s, hp, ?_⟩
        rw [hres, List.isEmpty_iff.mp hc3]
      rw [if_neg hc3] at h
      by_cases hc4 : (batch.length : Int) < pp
      · exfalso
        have hnn : (0 : Int) ≤ (batch.length : Int) := Int.ofNat_nonneg _
        omega
      rw [if_neg hc4] at h
      exact ih (p + 1) (acc ++ batch) (reqs + 1) res rq (by omega) h

/-- C10: the Repository Lister terminates whenever some reachable page
replies with an empty or shorter-than-page-size batch; and when the page
size is zero or negative the short-page break can never fire, so a
successful run terminates only upon receiving an empty page. -/
theorem list_user_repos_terminates {α : Type} (pages : Nat → HttpResult (List α))
    (pp : Int) (fuel n : Nat) :
    (∀ s batch, 1 ≤ n → n ≤ fuel → pages n = .response s batch →
        (batch = [] ∨ (batch.length : Int) < pp) →
        (list_user_repos pages pp fuel).isSome = true)
    ∧ (pp ≤ 0 → ∀ res reqs, list_user_repos pages pp fuel = some (.ok (res, reqs)) →
        ∃ q s, 1 ≤ q ∧ pages q = .response s []) := by
  constructor
  · intro s batch h1 h2 hn hshort
    exact list_user_reposAux_stops pages pp n s batch hn hshort fuel 1 [] 0 h1 (by omega)
  · intro hpp res reqs h
    exact list_user_reposAux_ok_empty_page pages pp hpp fuel 1 [] 0 res reqs (le_refl 1) h

/-- Witness for C10: a server whose first page is already empty makes the
loop halt within one iteration. -/
theorem list_user_repos_terminates_witness :
    (list_user_repos (fun _ => HttpResult.response 200 ([] : List Nat)) 2 1).isSome = true :=
  (list_user_repos_terminates (fun _ => HttpResult.response 200 ([] : List Nat)) 2 1 1).1
    200 [] (le_refl 1) (le_refl 1) rfl (Or.inl rfl)

end GithubProfile
